import Mathlib

/-!
# gr-eventstream: the event distributor block (`lib/es_distributor.cc`)

A shallow embedding of `es_distributor`: the constructor with its outbound
message ports, the two message handlers `dist_msg_random` and `dist_msg_all`,
the streaming `work` function and the two counter accessors.

Calls into the host (`message_port_register_in`, `message_port_register_out`,
`message_port_pub`) are recorded in the state, so that what the block registered
and published can be observed. `rand()` is an explicit argument of the handler
that calls it.
-/

/-! ## Messages -/

/-- Polymorphic message values (`pmt::pmt_t`), by the shapes the distributor
can tell apart: the empty value, interned symbols, integers, pairs (lists and
dictionaries are chains of pairs), and `other` for a value of any further kind
(boolean, real, string, vector, blob, ...), told apart by a number. -/
inductive pmt where
  | nil : pmt
  | symbol (name : String) : pmt
  | integer (value : Int) : pmt
  | pair (car cdr : pmt) : pmt
  | other (id : Nat) : pmt
  deriving DecidableEq, Repr

namespace pmt

/-- The call `pmt::mp(const char *)`: the interned symbol of that name. -/
def mp (name : String) : pmt := symbol name

/-- The test `pmt::is_pair`. -/
def is_pair : pmt → Bool
  | pair _ _ => true
  | _ => false

/-- The accessor `pmt::car`; it has a value on pairs only. -/
def car : pmt → Option pmt
  | pair a _ => some a
  | _ => none

/-- The comparison `pmt::eqv`. Symbols are interned, so two symbols are the same
object exactly when their names agree; numbers compare by value. Object identity
of two pairs, or of two values of a further kind, is not observable in a value
model and is rendered as equality. Values of different shapes are never
`eqv`. -/
def eqv : pmt → pmt → Bool
  | symbol a, symbol b => a == b
  | integer a, integer b => a == b
  | nil, nil => true
  | pair a b, pair c d => decide (pair a b = pair c d)
  | other a, other b => a == b
  | _, _ => false

end pmt

/-! ## Outcomes of a call -/

/-- Undefined behaviour a call of the C++ code can run into. -/
inductive Fault where
  | modulus_by_zero
  | index_out_of_range
  | signed_overflow
  | buffer_overrun
  deriving DecidableEq, Repr

/-- How a call ends: it returns, it throws an exception to its caller, or it
runs into undefined behaviour. None of the functions of `es_distributor.cc`
contains a `throw`. -/
inductive Outcome (α : Type) where
  | ok (value : α) : Outcome α
  | raised (what : String) : Outcome α
  | undefined (fault : Fault) : Outcome α
  deriving DecidableEq, Repr

/-- A byte of a stream buffer. -/
abbrev byte := Fin 256

/-- Largest value of `int`. -/
def INT_MAX : Int := 2147483647

/-- Smallest value of `int`. -/
def INT_MIN : Int := -2147483648

/-- Largest value `rand()` returns (the value of the GNU C library). -/
def RAND_MAX : Nat := 2147483647

/-! ## The block -/

/-- State of an `es_distributor`. The members `d_time`, `d_num_out_ports`,
`d_num_events_distributed`, `d_num_events_registered`,
`d_separate_registration` and `d_out_ports` are those of the class; their
declarations are in `es/es.h`, which is not among the sources at hand, so the
two event counters and `d_time` are kept as unbounded numbers, changed by the
increments of the code. `iosig` is the stream shape handed to the base class.
`msg_ports_in`, `msg_ports_out` and `published` record, in call order, the
host calls `message_port_register_in`, `message_port_register_out` and
`message_port_pub`. -/
structure es_distributor where
  d_time : Int
  d_num_out_ports : Int
  d_num_events_distributed : Nat
  d_num_events_registered : Nat
  d_separate_registration : Bool
  d_out_ports : List String
  iosig : List Int
  msg_ports_in : List String
  msg_ports_out : List String
  published : List (String × pmt)
  deriving DecidableEq, Repr

namespace es_distributor

/-- Decimal rendering of an `int`, as `std::ostringstream << value` produces
it. -/
def int_to_string (value : Int) : String :=
  match value with
  | Int.ofNat n => Nat.repr n
  | Int.negSucc n => "-" ++ Nat.repr (n + 1)

/-- The host call `message_port_register_in`. -/
def message_port_register_in (s : es_distributor) (port : String) : es_distributor :=
  { s with msg_ports_in := s.msg_ports_in ++ [port] }

/-- The host call `message_port_register_out`. -/
def message_port_register_out (s : es_distributor) (port : String) : es_distributor :=
  { s with msg_ports_out := s.msg_ports_out ++ [port] }

/-- The host call `message_port_pub`: the message leaves on the named port. -/
def message_port_pub (s : es_distributor) (port : String) (msg : pmt) : es_distributor :=
  { s with published := s.published ++ [(port, msg)] }

/-- The name the constructor gives the outbound port of ordinal `i`: the local
`out_port_name`, which is `base_out_port_name`, with `int_to_string(i)` appended
when `d_num_out_ports != 1`. -/
def out_port_name (d_num_out_ports i : Int) : String :=
  let base_out_port_name := "dist_out"
  if d_num_out_ports ≠ 1 then base_out_port_name ++ int_to_string i
  else base_out_port_name

/-- The loop `for (int i = 0; i < d_num_out_ports; i++)` of the constructor,
with the number of iterations still to run and the loop variable `i`. -/
def out_ports_loop : Nat → Int → es_distributor → es_distributor
  | 0, _, s => s
  | todo + 1, i, s =>
    let name := out_port_name s.d_num_out_ports i
    let s1 := message_port_register_out s name
    out_ports_loop todo (i + 1) { s1 with d_out_ports := s1.d_out_ports ++ [name] }

/-- The constructor `es_distributor::es_distributor`. -/
def ctor (iosig : List Int) (num_out_ports : Int) (separate_registration : Bool) :
    es_distributor :=
  let s0 : es_distributor :=
    { d_time := 0
      d_num_out_ports := num_out_ports
      d_num_events_distributed := 0
      d_num_events_registered := 0
      d_separate_registration := separate_registration
      d_out_ports := []
      iosig := iosig
      msg_ports_in := []
      msg_ports_out := []
      published := [] }
  let s1 := message_port_register_in s0 "dist_random"
  let s2 := if separate_registration then message_port_register_in s1 "dist_all" else s1
  out_ports_loop (num_out_ports - 0).toNat 0 s2

/-- The factory `es_make_distributor`: it hands out the newly built block. -/
def es_make_distributor (iosig : List Int) (num_out_ports : Int)
    (separate_registration : Bool) : Outcome es_distributor :=
  Outcome.ok (ctor iosig num_out_ports separate_registration)

/-- The loop of `dist_msg_all` over `i = 0 .. sz - 1`, with the number of
iterations still to run and the loop variable `i`. -/
def dist_msg_all_loop (msg : pmt) : Nat → Nat → es_distributor → Outcome es_distributor
  | 0, _, s => Outcome.ok s
  | todo + 1, i, s =>
    match s.d_out_ports[i]? with
    | none => Outcome.undefined Fault.index_out_of_range
    | some port => dist_msg_all_loop msg todo (i + 1) (message_port_pub s port msg)

/-- The handler `es_distributor::dist_msg_all`. -/
def dist_msg_all (s : es_distributor) (msg : pmt) : Outcome es_distributor :=
  let sz := s.d_out_ports.length
  match dist_msg_all_loop msg sz 0 s with
  | Outcome.ok s1 =>
    Outcome.ok { s1 with d_num_events_registered := s1.d_num_events_registered + 1 }
  | Outcome.raised what => Outcome.raised what
  | Outcome.undefined fault => Outcome.undefined fault

/-- The test of `dist_msg_random` for a registration event:
`pmt::is_pair(msg) && pmt::eqv(pmt::car(msg), pmt::mp("ES_REGISTER_HANDLER"))`. -/
def is_registration (msg : pmt) : Bool :=
  pmt.is_pair msg &&
    (match pmt.car msg with
     | some head => pmt.eqv head (pmt.mp "ES_REGISTER_HANDLER")
     | none => false)

/-- The handler `es_distributor::dist_msg_random`; `rand` is the value the call
of `rand()` returns, a number from `0` to `RAND_MAX`. The `%` of C truncates
towards zero; the index of `d_out_ports[...]` is converted to `size_t`, which
takes a negative index past the end of every vector. -/
def dist_msg_random (s : es_distributor) (rand : Nat) (msg : pmt) : Outcome es_distributor :=
  if !s.d_separate_registration && is_registration msg then
    dist_msg_all s msg
  else if s.d_num_out_ports = 0 then
    Outcome.undefined Fault.modulus_by_zero
  else
    let random_sink : Int := Int.tmod (rand : Int) s.d_num_out_ports
    if random_sink < 0 then Outcome.undefined Fault.index_out_of_range
    else
      match s.d_out_ports[random_sink.toNat]? with
      | none => Outcome.undefined Fault.index_out_of_range
      | some port =>
        let s1 := message_port_pub s port msg
        Outcome.ok { s1 with d_num_events_distributed := s1.d_num_events_distributed + 1 }

/-- The library call `memcpy(dst, src, n)` on two separate buffers: the first
`n` bytes of `dst` become those of `src`; reading or writing past the end of a
buffer is undefined. -/
def memcpy (dst src : List byte) (n : Nat) : Outcome (List byte) :=
  if n ≤ src.length ∧ n ≤ dst.length then Outcome.ok (src.take n ++ dst.drop n)
  else Outcome.undefined Fault.buffer_overrun

/-- The loop of `work` over the streams, with the number of iterations still to
run and the loop variable `i`. `sizeof_stream_item` is
`input_signature()->sizeof_stream_item`. The product
`noutput_items * item_size` is computed in `int` and then converted to
`size_t`. -/
def work_loop (sizeof_stream_item : Nat → Int) (noutput_items : Int)
    (input_items : List (List byte)) :
    Nat → Nat → List (List byte) → Outcome (List (List byte))
  | 0, _, output_items => Outcome.ok output_items
  | todo + 1, i, output_items =>
    let item_size := sizeof_stream_item i
    match input_items[i]?, output_items[i]? with
    | some ii, some oi =>
      let n := noutput_items * item_size
      if n < INT_MIN ∨ INT_MAX < n then Outcome.undefined Fault.signed_overflow
      else
        match memcpy oi ii (n % 2 ^ 64).toNat with
        | Outcome.ok oi1 =>
          work_loop sizeof_stream_item noutput_items input_items todo (i + 1)
            (output_items.set i oi1)
        | Outcome.raised what => Outcome.raised what
        | Outcome.undefined fault => Outcome.undefined fault
    | _, _ => Outcome.undefined Fault.index_out_of_range

/-- The function `es_distributor::work`: it returns the new state, the output
buffers and the number of items produced. -/
def work (s : es_distributor) (sizeof_stream_item : Nat → Int) (noutput_items : Int)
    (input_items output_items : List (List byte)) :
    Outcome (es_distributor × List (List byte) × Int) :=
  let n_chains := output_items.length
  match work_loop sizeof_stream_item noutput_items input_items n_chains 0 output_items with
  | Outcome.ok out =>
    Outcome.ok ({ s with d_time := s.d_time + noutput_items }, out, noutput_items)
  | Outcome.raised what => Outcome.raised what
  | Outcome.undefined fault => Outcome.undefined fault

/-- The accessor `es_distributor::nevents_registered`: the value it returns and
the state it leaves. -/
def nevents_registered (s : es_distributor) : Nat × es_distributor :=
  (s.d_num_events_registered, s)

/-- The accessor `es_distributor::nevents_distributed`: the value it returns and
the state it leaves. -/
def nevents_distributed (s : es_distributor) : Nat × es_distributor :=
  (s.d_num_events_distributed, s)

/-- A run of calls of `dist_msg_random`, one per entry: the value `rand()`
returns in that call, and the message. The run stops at the first call that does
not return. -/
def dist_msg_random_seq (s : es_distributor) : List (Nat × pmt) → Outcome es_distributor
  | [] => Outcome.ok s
  | (rand, msg) :: rest =>
    match dist_msg_random s rand msg with
    | Outcome.ok s1 => dist_msg_random_seq s1 rest
    | Outcome.raised what => Outcome.raised what
    | Outcome.undefined fault => Outcome.undefined fault

/-- Number of values `r` of `rand()`, among `0 .. RAND_MAX`, for which
`r % d_num_out_ports` is the index `i`. -/
def rand_draws (d_num_out_ports i : Nat) : Nat :=
  Nat.count (fun r => r % d_num_out_ports = i) (RAND_MAX + 1)

/-- The states a distributor can be in: the one the constructor builds, and
every state a returning call of a handler, of `work` or of an accessor leaves. -/
inductive Reachable : es_distributor → Prop where
  | ctor (iosig : List Int) (num_out_ports : Int) (separate_registration : Bool) :
      Reachable (ctor iosig num_out_ports separate_registration)
  | dist_msg_random {s s1 : es_distributor} (rand : Nat) (msg : pmt) :
      Reachable s → dist_msg_random s rand msg = Outcome.ok s1 → Reachable s1
  | dist_msg_all {s s1 : es_distributor} (msg : pmt) :
      Reachable s → dist_msg_all s msg = Outcome.ok s1 → Reachable s1
  | work {s s1 : es_distributor} (sizeof_stream_item : Nat → Int) (noutput_items : Int)
      (input_items output_items out : List (List byte)) (produced : Int) :
      Reachable s →
      work s sizeof_stream_item noutput_items input_items output_items
        = Outcome.ok (s1, out, produced) →
      Reachable s1
  | nevents_registered {s : es_distributor} :
      Reachable s → Reachable (nevents_registered s).2
  | nevents_distributed {s : es_distributor} :
      Reachable s → Reachable (nevents_distributed s).2

/-- The outbound ports of a state are those the constructor builds for its
`d_num_out_ports`, and they are the ports registered with the host. -/
def ports_as_built (s : es_distributor) : Prop :=
  s.d_out_ports =
    (List.range s.d_num_out_ports.toNat).map
      (fun (j : Nat) => out_port_name s.d_num_out_ports (Int.ofNat j)) ∧
  s.msg_ports_out = s.d_out_ports

/-- Number of entries of a publish log that went out on the given port. -/
def published_on (log : List (String × pmt)) (port : String) : Nat :=
  (log.filter (fun e => decide (e.1 = port))).length

/-- Value of a decimal digit character. -/
def digit_value (c : Char) : Nat := c.toNat - 48

/-- Number a string of decimal digits stands for, read from the left. -/
def decimal_value (cs : List Char) : Nat :=
  cs.foldl (fun acc c => 10 * acc + digit_value c) 0

end es_distributor

open es_distributor

/-! ## The outbound ports the constructor builds -/

theorem out_ports_loop_eq (todo : Nat) : ∀ (i : Int) (s : es_distributor),
    out_ports_loop todo i s =
      { s with
        msg_ports_out := s.msg_ports_out ++
          (List.range todo).map (fun (j : Nat) => out_port_name s.d_num_out_ports (i + Int.ofNat j))
        d_out_ports := s.d_out_ports ++
          (List.range todo).map (fun (j : Nat) => out_port_name s.d_num_out_ports (i + Int.ofNat j)) } := by
  induction todo with
  | zero => intro i s; simp [out_ports_loop]
  | succ k ih =>
    intro i s
    rw [out_ports_loop, ih]
    simp only [message_port_register_out, List.range_succ_eq_map, List.map_cons, List.map_map,
      List.append_assoc, List.singleton_append]
    congr 2 <;>
    · congr 1
      · simp
      · apply List.map_congr_left
        intro j _
        simp only [Function.comp, Nat.succ_eq_add_one]
        congr 1
        simp only [Int.ofNat_eq_coe]
        push_cast
        ring

theorem ctor_d_out_ports (iosig : List Int) (n : Int) (sep : Bool) :
    (ctor iosig n sep).d_out_ports =
      (List.range n.toNat).map (fun (j : Nat) => out_port_name n (Int.ofNat j)) := by
  unfold ctor
  simp only [out_ports_loop_eq, sub_zero]
  cases sep <;> simp [message_port_register_in]

theorem ctor_msg_ports_out (iosig : List Int) (n : Int) (sep : Bool) :
    (ctor iosig n sep).msg_ports_out =
      (List.range n.toNat).map (fun (j : Nat) => out_port_name n (Int.ofNat j)) := by
  unfold ctor
  simp only [out_ports_loop_eq, sub_zero]
  cases sep <;> simp [message_port_register_in]

theorem ctor_fields (iosig : List Int) (n : Int) (sep : Bool) :
    (ctor iosig n sep).d_num_out_ports = n ∧
    (ctor iosig n sep).d_separate_registration = sep ∧
    (ctor iosig n sep).d_num_events_distributed = 0 ∧
    (ctor iosig n sep).d_num_events_registered = 0 ∧
    (ctor iosig n sep).d_time = 0 ∧
    (ctor iosig n sep).published = [] := by
  unfold ctor
  simp only [out_ports_loop_eq, sub_zero]
  cases sep <;> simp [message_port_register_in]

/-! ## The handlers -/

theorem dist_msg_all_loop_eq (msg : pmt) (todo : Nat) : ∀ (i : Nat) (s : es_distributor),
    i + todo = s.d_out_ports.length →
    dist_msg_all_loop msg todo i s =
      Outcome.ok { s with
        published := s.published ++ (s.d_out_ports.drop i).map (fun port => (port, msg)) } := by
  induction todo with
  | zero =>
    intro i s h
    have hi : s.d_out_ports.length ≤ i := by omega
    simp [dist_msg_all_loop, List.drop_eq_nil_of_le hi]
  | succ k ih =>
    intro i s h
    have hi : i < s.d_out_ports.length := by omega
    rw [dist_msg_all_loop, List.getElem?_eq_getElem hi]
    simp only
    rw [ih (i + 1) _ (by simp only [message_port_pub]; omega)]
    simp only [message_port_pub, List.append_assoc, List.singleton_append]
    rw [List.drop_eq_getElem_cons hi]
    simp only [List.map_cons]

theorem dist_msg_all_eq (s : es_distributor) (msg : pmt) :
    dist_msg_all s msg =
      Outcome.ok { s with
        published := s.published ++ s.d_out_ports.map (fun port => (port, msg))
        d_num_events_registered := s.d_num_events_registered + 1 } := by
  unfold dist_msg_all
  simp only
  rw [dist_msg_all_loop_eq msg _ 0 s (by simp)]
  simp

theorem is_registration_of_car (msg : pmt)
    (h : pmt.car msg = some (pmt.mp "ES_REGISTER_HANDLER")) : is_registration msg = true := by
  cases msg with
  | pair a b =>
    simp only [pmt.car, Option.some.injEq] at h
    subst h
    simp [is_registration, pmt.is_pair, pmt.car, pmt.eqv, pmt.mp]
  | nil => simp [pmt.car] at h
  | symbol n => simp [pmt.car] at h
  | integer v => simp [pmt.car] at h
  | other k => simp [pmt.car] at h

theorem dist_msg_random_registration (s : es_distributor) (rand : Nat) (msg : pmt)
    (hsplit : s.d_separate_registration = false) (hreg : is_registration msg = true) :
    dist_msg_random s rand msg = dist_msg_all s msg := by
  simp [dist_msg_random, hsplit, hreg]

theorem dist_msg_random_pick (s : es_distributor) (rand : Nat) (msg : pmt)
    (hord : s.d_separate_registration = true ∨ is_registration msg = false)
    (hpos : 0 < s.d_num_out_ports)
    (hlen : (s.d_out_ports.length : Int) = s.d_num_out_ports) :
    ∃ port, s.d_out_ports[rand % s.d_num_out_ports.toNat]? = some port ∧
      dist_msg_random s rand msg =
        Outcome.ok { s with
          published := s.published ++ [(port, msg)]
          d_num_events_distributed := s.d_num_events_distributed + 1 } := by
  have hcond : (!s.d_separate_registration && is_registration msg) = false := by
    rcases hord with h | h <;> simp [h]
  have hne : s.d_num_out_ports ≠ 0 := by omega
  obtain ⟨n, hn⟩ : ∃ n : Nat, s.d_num_out_ports = (n : Int) :=
    ⟨s.d_num_out_ports.toNat, by omega⟩
  have hn0 : 0 < n := by omega
  have h1 : Int.tmod (rand : Int) s.d_num_out_ports
      = ((rand % s.d_num_out_ports.toNat : Nat) : Int) := by
    rw [hn, Int.tmod_eq_emod (by omega) (by omega)]
    norm_cast
  have hneg : ¬ Int.tmod (rand : Int) s.d_num_out_ports < 0 := by
    rw [h1]
    omega
  have hlt : rand % s.d_num_out_ports.toNat < s.d_out_ports.length := by
    have : s.d_num_out_ports.toNat = s.d_out_ports.length := by omega
    rw [this]
    exact Nat.mod_lt _ (by omega)
  refine ⟨s.d_out_ports[rand % s.d_num_out_ports.toNat], List.getElem?_eq_getElem hlt, ?_⟩
  unfold dist_msg_random
  rw [hcond]
  simp only [Bool.false_eq_true, if_false, hne, hneg]
  rw [h1]
  simp only [Int.toNat_ofNat, List.getElem?_eq_getElem hlt, message_port_pub]

/-! ## What a returning call leaves untouched -/

theorem dist_msg_all_frame (s s1 : es_distributor) (msg : pmt)
    (h : dist_msg_all s msg = Outcome.ok s1) :
    s1.d_out_ports = s.d_out_ports ∧ s1.d_num_out_ports = s.d_num_out_ports ∧
    s1.msg_ports_out = s.msg_ports_out ∧
    s1.d_separate_registration = s.d_separate_registration ∧
    s1.d_time = s.d_time ∧
    s1.d_num_events_distributed = s.d_num_events_distributed ∧
    s1.d_num_events_registered = s.d_num_events_registered + 1 := by
  rw [dist_msg_all_eq] at h
  cases h
  simp

theorem dist_msg_random_frame (s s1 : es_distributor) (rand : Nat) (msg : pmt)
    (h : dist_msg_random s rand msg = Outcome.ok s1) :
    s1.d_out_ports = s.d_out_ports ∧ s1.d_num_out_ports = s.d_num_out_ports ∧
    s1.msg_ports_out = s.msg_ports_out ∧
    s1.d_separate_registration = s.d_separate_registration ∧
    s1.d_time = s.d_time ∧
    s.d_num_events_distributed ≤ s1.d_num_events_distributed ∧
    s.d_num_events_registered ≤ s1.d_num_events_registered := by
  unfold dist_msg_random at h
  split at h
  · obtain ⟨a, b, c, d, e, f, g⟩ := dist_msg_all_frame s s1 msg h
    exact ⟨a, b, c, d, e, by omega, by omega⟩
  · split at h
    · cases h
    · simp only at h
      split at h
      · cases h
      · split at h
        · cases h
        · cases h
          simp [message_port_pub]

theorem work_frame (s s1 : es_distributor) (sizeof_stream_item : Nat → Int)
    (noutput_items : Int) (input_items output_items out : List (List byte)) (produced : Int)
    (h : work s sizeof_stream_item noutput_items input_items output_items
      = Outcome.ok (s1, out, produced)) :
    s1 = { s with d_time := s.d_time + noutput_items } ∧ produced = noutput_items := by
  unfold work at h
  simp only at h
  split at h
  · cases h
    exact ⟨rfl, rfl⟩
  · cases h
  · cases h

theorem reachable_ports_as_built (s : es_distributor) (h : Reachable s) : ports_as_built s := by
  induction h with
  | ctor iosig n sep =>
    refine ⟨?_, ?_⟩
    · rw [ctor_d_out_ports, (ctor_fields iosig n sep).1]
    · rw [ctor_d_out_ports, ctor_msg_ports_out]
  | dist_msg_random rand msg _ hstep ih =>
    obtain ⟨h1, h2, h3, _⟩ := dist_msg_random_frame _ _ rand msg hstep
    unfold ports_as_built at *
    rw [h1, h2, h3]
    exact ih
  | dist_msg_all msg _ hstep ih =>
    obtain ⟨h1, h2, h3, _⟩ := dist_msg_all_frame _ _ msg hstep
    unfold ports_as_built at *
    rw [h1, h2, h3]
    exact ih
  | work f k ins outs out produced _ hstep ih =>
    obtain ⟨h1, _⟩ := work_frame _ _ f k ins outs out produced hstep
    subst h1
    exact ih
  | nevents_registered _ ih => exact ih
  | nevents_distributed _ ih => exact ih

theorem ports_as_built_length (s : es_distributor) (h : ports_as_built s) :
    s.d_out_ports.length = s.d_num_out_ports.toNat := by
  rw [h.1]
  simp

/-! ## Decimal rendering is injective -/

theorem digit_value_digitChar (d : Nat) (h : d < 10) : digit_value (Nat.digitChar d) = d := by
  interval_cases d <;> rfl

theorem decimal_value_toDigitsCore (fuel : Nat) : ∀ (n : Nat) (ds : List Char), n < fuel →
    (Nat.toDigitsCore 10 fuel n ds).foldl (fun acc c => 10 * acc + digit_value c) 0
      = ds.foldl (fun acc c => 10 * acc + digit_value c) n := by
  induction fuel with
  | zero => intro n ds h; omega
  | succ f ih =>
    intro n ds h
    rw [Nat.toDigitsCore]
    split
    · rename_i h0
      have hlt : n < 10 := by omega
      simp only [List.foldl_cons, Nat.mul_zero, Nat.zero_add]
      rw [Nat.mod_eq_of_lt hlt, digit_value_digitChar n hlt]
    · rename_i h0
      rw [ih (n / 10) _ (by omega)]
      simp only [List.foldl_cons]
      rw [digit_value_digitChar _ (Nat.mod_lt _ (by decide))]
      congr 1
      omega

theorem decimal_value_repr (n : Nat) : decimal_value (Nat.repr n).data = n := by
  unfold decimal_value Nat.repr Nat.toDigits
  simp only [List.asString]
  rw [decimal_value_toDigitsCore (n + 1) n [] (by omega)]
  rfl

theorem int_to_string_ofNat_injective (a b : Nat)
    (h : int_to_string (Int.ofNat a) = int_to_string (Int.ofNat b)) : a = b := by
  simp only [int_to_string] at h
  have := congrArg (fun t => decimal_value t.data) h
  simpa [decimal_value_repr] using this

theorem out_port_name_injective (n : Int) (hn : n ≠ 1) (a b : Nat)
    (h : out_port_name n (Int.ofNat a) = out_port_name n (Int.ofNat b)) : a = b := by
  simp only [out_port_name, hn, ne_eq, not_false_eq_true, if_true] at h
  apply int_to_string_ofNat_injective
  have hd := congrArg String.data h
  simp only [String.data_append] at hd
  exact String.ext (List.append_cancel_left hd)

theorem ports_as_built_nodup (s : es_distributor) (h : ports_as_built s) :
    s.d_out_ports.Nodup := by
  rw [h.1]
  by_cases hn : s.d_num_out_ports = 1
  · rw [hn]
    decide
  · apply List.Nodup.map_on _ (List.nodup_range _)
    intro a _ b _ hab
    exact out_port_name_injective _ hn a b hab

theorem published_on_broadcast (msg : pmt) (port : String) : ∀ (ports : List String),
    published_on (ports.map (fun p => (p, msg))) port = ports.count port := by
  intro ports
  induction ports with
  | nil => rfl
  | cons a t ih =>
    unfold published_on at ih ⊢
    by_cases h : a = port
    · subst h
      simp [List.filter_cons, ih]
    · have h2 : (a == port) = false := by simpa using h
      simp [List.filter_cons, h, ih, List.count_cons, h2]

theorem broadcast_once (ports : List String) (hnd : ports.Nodup) (msg : pmt) :
    ∀ port ∈ ports, published_on (ports.map (fun p => (p, msg))) port = 1 := by
  intro port hp
  rw [published_on_broadcast]
  exact List.count_eq_one_of_mem hnd hp

theorem dist_msg_random_seq_eq (calls : List (Nat × pmt)) : ∀ (s : es_distributor),
    0 < s.d_num_out_ports → (s.d_out_ports.length : Int) = s.d_num_out_ports →
    (∀ c ∈ calls, s.d_separate_registration = true ∨ is_registration c.2 = false) →
    (∀ c ∈ calls, c.1 % s.d_num_out_ports.toNat < s.d_out_ports.length) ∧
    dist_msg_random_seq s calls =
      Outcome.ok { s with
        published := s.published ++
          calls.map (fun c => (s.d_out_ports.getD (c.1 % s.d_num_out_ports.toNat) "", c.2))
        d_num_events_distributed := s.d_num_events_distributed + calls.length } := by
  induction calls with
  | nil => intro s _ _ _; simp [dist_msg_random_seq]
  | cons c rest ih =>
    intro s hpos hlen hord
    obtain ⟨port, hport, hstep⟩ :=
      dist_msg_random_pick s c.1 c.2 (hord c (List.mem_cons_self _ _)) hpos hlen
    have hlt : c.1 % s.d_num_out_ports.toNat < s.d_out_ports.length := by
      have : s.d_num_out_ports.toNat = s.d_out_ports.length := by omega
      rw [this]
      exact Nat.mod_lt _ (by omega)
    obtain ⟨ih1, ih2⟩ := ih
      { s with
        published := s.published ++ [(port, c.2)]
        d_num_events_distributed := s.d_num_events_distributed + 1 }
      hpos hlen (fun x hx => hord x (List.mem_cons_of_mem _ hx))
    refine ⟨?_, ?_⟩
    · intro x hx
      rcases List.mem_cons.mp hx with h | h
      · rw [h]; exact hlt
      · exact ih1 x h
    · obtain ⟨r, m⟩ := c
      simp only [dist_msg_random_seq]
      rw [hstep]
      simp only
      rw [ih2]
      have hget : s.d_out_ports.getD (r % s.d_num_out_ports.toNat) "" = port := by
        simp only at hport
        rw [List.getD_eq_getElem?_getD, hport]
        rfl
      simp only [List.map_cons, List.length_cons, hget, List.append_assoc, List.singleton_append]
      congr 2
      omega

/-! ## Registration events and ordinary events -/

/-- C1: in non-split mode, with one to four outbound ports, a call of
`dist_msg_random` with a pair headed by `ES_REGISTER_HANDLER` returns and
publishes that very message on every outbound port, in port order and once per
port (as many publishes as there are ports, and nothing else), adds one to
`d_num_events_registered` and leaves `d_num_events_distributed` as it was. -/
theorem C1_registration_broadcast (s : es_distributor) (hs : Reachable s)
    (hn : 1 ≤ s.d_num_out_ports ∧ s.d_num_out_ports ≤ 4)
    (hsplit : s.d_separate_registration = false)
    (rand : Nat) (msg : pmt) (hmsg : pmt.car msg = some (pmt.mp "ES_REGISTER_HANDLER")) :
    ∃ s1, dist_msg_random s rand msg = Outcome.ok s1 ∧
      s1.published = s.published ++ s.d_out_ports.map (fun port => (port, msg)) ∧
      s.msg_ports_out = s.d_out_ports ∧
      ((s.d_out_ports.map (fun port => (port, msg))).length : Int) = s.d_num_out_ports ∧
      (∀ port ∈ s.d_out_ports,
        published_on (s.d_out_ports.map (fun port => (port, msg))) port = 1) ∧
      s1.d_num_events_registered = s.d_num_events_registered + 1 ∧
      s1.d_num_events_distributed = s.d_num_events_distributed := by
  have hb := reachable_ports_as_built s hs
  have hlen := ports_as_built_length s hb
  have hstep := dist_msg_random_registration s rand msg hsplit (is_registration_of_car msg hmsg)
  rw [dist_msg_all_eq] at hstep
  refine ⟨_, hstep, rfl, hb.2, ?_, broadcast_once _ (ports_as_built_nodup s hb) msg, rfl, rfl⟩
  rw [List.length_map, hlen]
  omega

theorem C1_registration_broadcast_witness :
    ∃ s1, dist_msg_random (ctor [4] 3 false) 5
        (pmt.pair (pmt.mp "ES_REGISTER_HANDLER") (pmt.integer 9)) = Outcome.ok s1 ∧
      s1.published =
        [("dist_out0", pmt.pair (pmt.mp "ES_REGISTER_HANDLER") (pmt.integer 9)),
         ("dist_out1", pmt.pair (pmt.mp "ES_REGISTER_HANDLER") (pmt.integer 9)),
         ("dist_out2", pmt.pair (pmt.mp "ES_REGISTER_HANDLER") (pmt.integer 9))] ∧
      s1.d_num_events_registered = 1 ∧ s1.d_num_events_distributed = 0 := by
  obtain ⟨s1, h1, h2, _, _, _, h6, h7⟩ :=
    C1_registration_broadcast (ctor [4] 3 false) (Reachable.ctor [4] 3 false)
      (by decide) (by decide) 5 (pmt.pair (pmt.mp "ES_REGISTER_HANDLER") (pmt.integer 9))
      (by decide)
  exact ⟨s1, h1, h2, h6, h7⟩

/-- C2: with one to four outbound ports, a run of `N` calls of
`dist_msg_random` with ordinary messages (any message in split mode) and any
values of `rand()` returns; it publishes `N` messages, the k-th being the k-th
message of the run on the port of index `rand % d_num_out_ports`, an index
below the number of ports and so the name of a registered outbound port; it
adds `N` to `d_num_events_distributed` and changes nothing else. -/
theorem C2_random_dispatch_run (s : es_distributor) (hs : Reachable s)
    (hn : 1 ≤ s.d_num_out_ports ∧ s.d_num_out_ports ≤ 4)
    (calls : List (Nat × pmt))
    (hord : ∀ c ∈ calls, s.d_separate_registration = true ∨ is_registration c.2 = false) :
    ∃ s1, dist_msg_random_seq s calls = Outcome.ok s1 ∧
      s1.published = s.published ++
        calls.map (fun c => (s.d_out_ports.getD (c.1 % s.d_num_out_ports.toNat) "", c.2)) ∧
      (s1.published.length = s.published.length + calls.length) ∧
      (∀ c ∈ calls, c.1 % s.d_num_out_ports.toNat < s.d_out_ports.length ∧
        s.d_out_ports.getD (c.1 % s.d_num_out_ports.toNat) "" ∈ s.msg_ports_out) ∧
      s1.d_num_events_distributed = s.d_num_events_distributed + calls.length ∧
      s1.d_num_events_registered = s.d_num_events_registered := by
  have hb := reachable_ports_as_built s hs
  have hlen := ports_as_built_length s hb
  obtain ⟨hidx, hrun⟩ := dist_msg_random_seq_eq calls s (by omega) (by omega) hord
  refine ⟨_, hrun, rfl, ?_, ?_, rfl, rfl⟩
  · simp
  · intro c hc
    refine ⟨hidx c hc, ?_⟩
    rw [hb.2, List.getD_eq_getElem?_getD, List.getElem?_eq_getElem (hidx c hc)]
    exact List.getElem_mem _

theorem C2_random_dispatch_run_witness :
    ∃ s1, dist_msg_random_seq (ctor [4] 2 false)
        [(7, pmt.symbol "a"), (4, pmt.pair (pmt.integer 1) pmt.nil)] = Outcome.ok s1 ∧
      s1.published =
        [("dist_out1", pmt.symbol "a"), ("dist_out0", pmt.pair (pmt.integer 1) pmt.nil)] ∧
      s1.d_num_events_distributed = 2 ∧ s1.d_num_events_registered = 0 := by
  obtain ⟨s1, h1, h2, _, _, h5, h6⟩ :=
    C2_random_dispatch_run (ctor [4] 2 false) (Reachable.ctor [4] 2 false) (by decide)
      [(7, pmt.symbol "a"), (4, pmt.pair (pmt.integer 1) pmt.nil)] (by decide)
  exact ⟨s1, h1, h2, h5, h6⟩

/-- C3: in split mode, with at least one outbound port, a call of
`dist_msg_random` with any message, a pair headed by `ES_REGISTER_HANDLER`
included, returns and publishes the message on one outbound port only, adds one
to `d_num_events_distributed` and leaves `d_num_events_registered` as it was;
a call of `dist_msg_all` returns and publishes the message on every outbound
port, in port order and once per port. -/
theorem C3_split_mode (s : es_distributor) (hs : Reachable s)
    (hn : 1 ≤ s.d_num_out_ports) (hsplit : s.d_separate_registration = true)
    (rand : Nat) (msg : pmt) :
    (∃ s1 port, dist_msg_random s rand msg = Outcome.ok s1 ∧
      port ∈ s.d_out_ports ∧
      s1.published = s.published ++ [(port, msg)] ∧
      s1.d_num_events_distributed = s.d_num_events_distributed + 1 ∧
      s1.d_num_events_registered = s.d_num_events_registered) ∧
    (∃ s2, dist_msg_all s msg = Outcome.ok s2 ∧
      s2.published = s.published ++ s.d_out_ports.map (fun port => (port, msg)) ∧
      (∀ port ∈ s.d_out_ports,
        published_on (s.d_out_ports.map (fun port => (port, msg))) port = 1)) := by
  have hb := reachable_ports_as_built s hs
  have hlen := ports_as_built_length s hb
  obtain ⟨port, hport, hstep⟩ :=
    dist_msg_random_pick s rand msg (Or.inl hsplit) (by omega) (by omega)
  refine ⟨⟨_, port, hstep, ?_, rfl, rfl, rfl⟩, ⟨_, dist_msg_all_eq s msg, rfl, ?_⟩⟩
  · exact List.getElem?_mem hport
  · exact broadcast_once _ (ports_as_built_nodup s hb) msg

theorem C3_split_mode_witness :
    (∃ s1 port, dist_msg_random (ctor [4] 2 true) 3
        (pmt.pair (pmt.mp "ES_REGISTER_HANDLER") pmt.nil) = Outcome.ok s1 ∧
      port ∈ (ctor [4] 2 true).d_out_ports ∧
      s1.published = (ctor [4] 2 true).published ++
        [(port, pmt.pair (pmt.mp "ES_REGISTER_HANDLER") pmt.nil)] ∧
      s1.d_num_events_distributed = (ctor [4] 2 true).d_num_events_distributed + 1 ∧
      s1.d_num_events_registered = (ctor [4] 2 true).d_num_events_registered) ∧
    (∃ s2, dist_msg_all (ctor [4] 2 true)
        (pmt.pair (pmt.mp "ES_REGISTER_HANDLER") pmt.nil) = Outcome.ok s2 ∧
      s2.published = (ctor [4] 2 true).published ++
        (ctor [4] 2 true).d_out_ports.map
          (fun port => (port, pmt.pair (pmt.mp "ES_REGISTER_HANDLER") pmt.nil)) ∧
      (∀ port ∈ (ctor [4] 2 true).d_out_ports,
        published_on ((ctor [4] 2 true).d_out_ports.map
          (fun port => (port, pmt.pair (pmt.mp "ES_REGISTER_HANDLER") pmt.nil))) port = 1)) :=
  C3_split_mode (ctor [4] 2 true) (Reachable.ctor [4] 2 true) (by decide) (by decide) 3
    (pmt.pair (pmt.mp "ES_REGISTER_HANDLER") pmt.nil)

/-- C4: for every state and every message, whatever its content, a call of
`dist_msg_all` returns, appends to the publish log the entries
`(d_out_ports[0], msg), ..., (d_out_ports[n-1], msg)` in the order of
`d_out_ports`, adds one to `d_num_events_registered` whatever the number of
ports, and changes nothing else (`d_num_events_distributed` stays). -/
theorem C4_broadcast_in_port_order (s : es_distributor) (msg : pmt) :
    dist_msg_all s msg =
      Outcome.ok { s with
        published := s.published ++ s.d_out_ports.map (fun port => (port, msg))
        d_num_events_registered := s.d_num_events_registered + 1 } :=
  dist_msg_all_eq s msg

/-! ## Streaming passthrough -/

theorem work_loop_eq (f : Nat → Int) (k : Int) (ins : List (List byte)) (todo : Nat) :
    ∀ (i : Nat) (outs : List (List byte)),
    i + todo = outs.length → ins.length = outs.length →
    (∀ j ii oi, i ≤ j → ins[j]? = some ii → outs[j]? = some oi →
      0 ≤ k * f j ∧ k * f j ≤ INT_MAX ∧
      (k * f j).toNat ≤ ii.length ∧ (k * f j).toNat ≤ oi.length) →
    ∃ out, work_loop f k ins todo i outs = Outcome.ok out ∧ out.length = outs.length ∧
      (∀ j, j < i → out[j]? = outs[j]?) ∧
      (∀ j ii oi, i ≤ j → ins[j]? = some ii → outs[j]? = some oi →
        out[j]? = some (ii.take (k * f j).toNat ++ oi.drop (k * f j).toNat)) := by
  induction todo with
  | zero =>
    intro i outs hi _ _
    refine ⟨outs, rfl, rfl, fun _ _ => rfl, ?_⟩
    intro j ii oi hij _ ho
    have : outs[j]? = none := List.getElem?_eq_none (by omega)
    rw [this] at ho
    cases ho
  | succ t ih =>
    intro i outs hi hlen hyp
    have hio : i < outs.length := by omega
    have hii : i < ins.length := by omega
    obtain ⟨h0, hmax, hsrc, hdst⟩ :=
      hyp i ins[i] outs[i] (le_refl i) (List.getElem?_eq_getElem hii)
        (List.getElem?_eq_getElem hio)
    have hmax1 : k * f i ≤ 2147483647 := hmax
    have hov : ¬ (k * f i < INT_MIN ∨ INT_MAX < k * f i) := by
      unfold INT_MIN INT_MAX
      omega
    have hconv : (k * f i % 2 ^ 64).toNat = (k * f i).toNat := by
      omega
    obtain ⟨out, hrun, hl, hlow, hhigh⟩ :=
      ih (i + 1) (outs.set i (ins[i].take (k * f i).toNat ++ outs[i].drop (k * f i).toNat))
        (by rw [List.length_set]; omega) (by rw [List.length_set]; exact hlen)
        (by
          intro j ii oi hij hi1 ho1
          rw [List.getElem?_set_ne (by omega)] at ho1
          exact hyp j ii oi (by omega) hi1 ho1)
    refine ⟨out, ?_, ?_, ?_, ?_⟩
    · rw [work_loop]
      simp only [List.getElem?_eq_getElem hii, List.getElem?_eq_getElem hio, hov, if_false,
        hconv, memcpy, hsrc, hdst, and_self, if_true]
      exact hrun
    · rw [hl, List.length_set]
    · intro j hj
      rw [hlow j (by omega), List.getElem?_set_ne (by omega)]
    · intro j ii oi hij hi1 ho1
      by_cases hji : j = i
      · subst hji
        rw [hlow j (by omega), List.getElem?_set_self hio]
        rw [List.getElem?_eq_getElem hii] at hi1
        rw [List.getElem?_eq_getElem hio] at ho1
        cases hi1
        cases ho1
        rfl
      · apply hhigh j ii oi (by omega) hi1
        rw [List.getElem?_set_ne (by omega)]
        exact ho1

/-- C5, as the code has it: for an item count of zero or more, item widths of
zero or more and input and output buffers, one pair per stream, in which every
byte count `noutput_items * item_size` is at most `INT_MAX` and fits both
buffers of its stream, `work` returns; the first `noutput_items * item_size`
bytes of every output buffer are then those of the input buffer of the stream
and the rest of the output buffer is as before; the value returned is
`noutput_items`, `d_time` has grown by `noutput_items`, and nothing else of the
state has changed. The input buffers are arguments only and are not written. -/
theorem C5_work_copies_streams (s : es_distributor) (sizeof_stream_item : Nat → Int)
    (noutput_items : Int) (input_items output_items : List (List byte))
    (hcount : 0 ≤ noutput_items)
    (hstreams : input_items.length = output_items.length ∧ output_items.length ≤ 4)
    (hfit : ∀ (i : Nat) (ii oi : List byte),
      input_items[i]? = some ii → output_items[i]? = some oi →
      0 ≤ sizeof_stream_item i ∧
      noutput_items * sizeof_stream_item i ≤ INT_MAX ∧
      (noutput_items * sizeof_stream_item i).toNat ≤ ii.length ∧
      (noutput_items * sizeof_stream_item i).toNat ≤ oi.length) :
    ∃ out, work s sizeof_stream_item noutput_items input_items output_items =
        Outcome.ok ({ s with d_time := s.d_time + noutput_items }, out, noutput_items) ∧
      out.length = output_items.length ∧
      ∀ (i : Nat) (ii oi : List byte),
        input_items[i]? = some ii → output_items[i]? = some oi →
        ∃ oi1, out[i]? = some oi1 ∧
          oi1.take (noutput_items * sizeof_stream_item i).toNat
            = ii.take (noutput_items * sizeof_stream_item i).toNat ∧
          oi1.drop (noutput_items * sizeof_stream_item i).toNat
            = oi.drop (noutput_items * sizeof_stream_item i).toNat ∧
          oi1.length = oi.length := by
  obtain ⟨out, hrun, hl, _, hhigh⟩ :=
    work_loop_eq sizeof_stream_item noutput_items input_items output_items.length 0
      output_items (by simp) hstreams.1
      (fun j ii oi _ h1 h2 =>
        ⟨Int.mul_nonneg hcount (hfit j ii oi h1 h2).1, (hfit j ii oi h1 h2).2⟩)
  refine ⟨out, ?_, hl, ?_⟩
  · unfold work
    simp only [hrun]
  · intro i ii oi h1 h2
    obtain ⟨_, _, hsrc, hdst⟩ := hfit i ii oi h1 h2
    refine ⟨_, hhigh i ii oi (Nat.zero_le _) h1 h2, ?_, ?_, ?_⟩
    · rw [List.take_append_of_le_length (by rw [List.length_take]; omega)]
      rw [List.take_take, Nat.min_self]
    · rw [List.drop_append_of_le_length (by rw [List.length_take]; omega)]
      simp [List.drop_take]
    · simp [List.length_take, List.length_drop]
      omega

theorem C5_work_copies_streams_witness :
    ∃ out, work (ctor [2, 2] 1 false) (fun _ => 2) 2
        [[1, 2, 3, 4, 5], [6, 7, 8, 9]] [[0, 0, 0, 0, 0, 0], [0, 0, 0, 0]] =
        Outcome.ok ({ ctor [2, 2] 1 false with d_time := (ctor [2, 2] 1 false).d_time + 2 },
          out, 2) ∧
      out.length = 2 := by
  obtain ⟨out, h1, h2, _⟩ :=
    C5_work_copies_streams (ctor [2, 2] 1 false) (fun _ => 2) 2
      [[1, 2, 3, 4, 5], [6, 7, 8, 9]] [[0, 0, 0, 0, 0, 0], [0, 0, 0, 0]]
      (by decide) (by decide)
      (by
        intro i ii oi hi ho
        rcases i with _ | _ | i
        · simp only [List.getElem?_cons_zero, Option.some.injEq] at hi ho
          subst hi
          subst ho
          decide
        · simp only [List.getElem?_cons_succ, List.getElem?_cons_zero, Option.some.injEq]
            at hi ho
          subst hi
          subst ho
          decide
        · simp at hi)
  exact ⟨out, h1, h2⟩

/-- C5 as stated fails where the byte count leaves `int`: with 268435456 items
of width 8 and buffers of 2147483648 bytes each, every buffer holds the
`268435456 * 8` bytes asked for, yet `noutput_items * item_size` overflows
`int` and `work` does not return. -/
theorem C5_counterexample_int_overflow :
    (0 : Int) ≤ 268435456 ∧
    268435456 * 8 ≤ (List.replicate 2147483648 (0 : byte)).length ∧
    work (ctor [8] 1 false) (fun _ => 8) 268435456
        [List.replicate 2147483648 (0 : byte)] [List.replicate 2147483648 (0 : byte)]
      = Outcome.undefined Fault.signed_overflow := by
  have key : ∀ big : List byte,
      work (ctor [8] 1 false) (fun _ => 8) 268435456 [big] [big]
        = Outcome.undefined Fault.signed_overflow := by
    intro big
    simp [work, work_loop, INT_MIN, INT_MAX]
  refine ⟨by decide, ?_, key _⟩
  rw [List.length_replicate]

/-! ## Names of the outbound ports -/

/-- C6: built with one outbound port, the distributor names it `dist_out`, with
no number after it; built with `K > 1` outbound ports, it names them, in order,
`dist_out` followed by the decimal rendering of `i`, for `i = 0 .. K-1`. These
are the names registered with the host, there are `K` of them and no two are the
same: `int_to_string` renders an ordinal as the decimal string that reads back
as that ordinal, so it takes different ordinals to different strings. -/
theorem C6_out_port_names (iosig : List Int) (sep : Bool) (K : Int) (hK : 1 < K) :
    (ctor iosig 1 sep).d_out_ports = ["dist_out"] ∧
    (ctor iosig 1 sep).msg_ports_out = ["dist_out"] ∧
    (ctor iosig K sep).d_out_ports =
      (List.range K.toNat).map (fun (i : Nat) => "dist_out" ++ int_to_string (Int.ofNat i)) ∧
    (ctor iosig K sep).msg_ports_out = (ctor iosig K sep).d_out_ports ∧
    ((ctor iosig K sep).d_out_ports.length : Int) = K ∧
    (ctor iosig K sep).d_out_ports.Nodup ∧
    (∀ i : Nat, decimal_value (int_to_string (Int.ofNat i)).data = i) ∧
    (∀ a b : Nat, int_to_string (Int.ofNat a) = int_to_string (Int.ofNat b) → a = b) := by
  have hb := reachable_ports_as_built _ (Reachable.ctor iosig K sep)
  have hne : K ≠ 1 := by omega
  refine ⟨?_, ?_, ?_, hb.2, ?_, ports_as_built_nodup _ hb, ?_, int_to_string_ofNat_injective⟩
  · rw [ctor_d_out_ports]
    decide
  · rw [ctor_msg_ports_out]
    decide
  · rw [ctor_d_out_ports]
    apply List.map_congr_left
    intro i _
    simp [out_port_name, hne]
  · rw [ports_as_built_length _ hb, (ctor_fields iosig K sep).1]
    omega
  · intro i
    exact decimal_value_repr i

theorem C6_out_port_names_witness :
    (ctor [4] 1 false).d_out_ports = ["dist_out"] ∧
    (ctor [4] 3 false).d_out_ports = ["dist_out0", "dist_out1", "dist_out2"] ∧
    (ctor [4] 3 false).d_out_ports.Nodup := by
  obtain ⟨h1, _, h3, _, _, h6, _⟩ := C6_out_port_names [4] false 3 (by decide)
  refine ⟨h1, ?_, h6⟩
  rw [h3]
  decide

/-! ## No outbound port at all -/

/-- C7, what the code does: built with no outbound port, the distributor has no
check in front of `rand() % d_num_out_ports`; every call of `dist_msg_random`
that gets to the random pick (any message in split mode, an ordinary message
otherwise) computes a modulus by zero, which is undefined behaviour; it
neither returns nor reports an error. -/
theorem C7_modulus_by_zero (iosig : List Int) (sep : Bool) (rand : Nat) (msg : pmt)
    (hord : sep = true ∨ is_registration msg = false) :
    dist_msg_random (ctor iosig 0 sep) rand msg = Outcome.undefined Fault.modulus_by_zero ∧
    (∀ what, dist_msg_random (ctor iosig 0 sep) rand msg ≠ Outcome.raised what) ∧
    (∀ s1, dist_msg_random (ctor iosig 0 sep) rand msg ≠ Outcome.ok s1) := by
  have h : dist_msg_random (ctor iosig 0 sep) rand msg
      = Outcome.undefined Fault.modulus_by_zero := by
    obtain ⟨hn, hs, _⟩ := ctor_fields iosig 0 sep
    unfold dist_msg_random
    rw [hn, hs]
    rcases hord with h | h <;> simp [h]
  refine ⟨h, ?_, ?_⟩
  · intro what
    rw [h]
    exact fun e => Outcome.noConfusion e
  · intro s1
    rw [h]
    exact fun e => Outcome.noConfusion e

theorem C7_modulus_by_zero_witness :
    dist_msg_random (ctor [4] 0 false) 7 (pmt.symbol "event")
      = Outcome.undefined Fault.modulus_by_zero :=
  (C7_modulus_by_zero [4] false 7 (pmt.symbol "event") (Or.inr (by decide))).1

/-! ## The random pick -/

theorem rand_draws_eq (n i : Nat) (hn : 0 < n) (hi : i < n) :
    rand_draws n i = (RAND_MAX + 1) / n + if i < (RAND_MAX + 1) % n then 1 else 0 := by
  unfold rand_draws
  generalize RAND_MAX + 1 = b
  have h := Nat.count_modEq_card b hn i
  rw [Nat.mod_eq_of_lt hi] at h
  rw [← h, Nat.count_eq_card_filter_range, Nat.count_eq_card_filter_range]
  apply congrArg
  apply Finset.filter_congr
  intro r _
  unfold Nat.ModEq
  rw [Nat.mod_eq_of_lt hi]

/-- C8, as the code has it: with one to four outbound ports, the numbers of
values of `rand()` that `rand() % d_num_out_ports` sends to two port indices
differ by one at most, and they are equal unless there are three ports. -/
theorem C8_draws_per_port (n : Nat) (hn : 1 ≤ n ∧ n ≤ 4) (i j : Nat) (hi : i < n)
    (hj : j < n) :
    rand_draws n i ≤ rand_draws n j + 1 ∧ (n ≠ 3 → rand_draws n i = rand_draws n j) := by
  rw [rand_draws_eq n i (by omega) hi, rand_draws_eq n j (by omega) hj]
  obtain ⟨h1, h4⟩ := hn
  interval_cases n <;> interval_cases i <;> interval_cases j <;> norm_num [RAND_MAX]

theorem C8_draws_per_port_witness :
    rand_draws 4 1 ≤ rand_draws 4 3 + 1 ∧ ((4 : Nat) ≠ 3 → rand_draws 4 1 = rand_draws 4 3) :=
  C8_draws_per_port 4 (by decide) 1 3 (by decide) (by decide)

/-- C8 as stated fails with three outbound ports: of the 2147483648 values of
`rand()`, 715827883 go to port index 0 and 715827882 to port index 2. -/
theorem C8_counterexample_three_ports :
    rand_draws 3 0 = 715827883 ∧ rand_draws 3 2 = 715827882 ∧
    rand_draws 3 0 ≠ rand_draws 3 2 := by
  have h0 : rand_draws 3 0 = 715827883 := by
    rw [rand_draws_eq 3 0 (by decide) (by decide)]
    norm_num [RAND_MAX]
  have h2 : rand_draws 3 2 = 715827882 := by
    rw [rand_draws_eq 3 2 (by decide) (by decide)]
    norm_num [RAND_MAX]
  refine ⟨h0, h2, ?_⟩
  rw [h0, h2]
  decide

/-! ## The event counters -/

/-- C9: both event counters are 0 in the state the constructor builds. From
every state, reachable or not, a call of `dist_msg_random` or of `work` that
returns, and every call of `dist_msg_all` (which always returns), leaves each
counter at least as large as it was; `work` leaves both as they were. The
accessors `nevents_registered` and `nevents_distributed` return the counters
and leave the state as it was. -/
theorem C9_counters (s : es_distributor) :
    (∀ (iosig : List Int) (n : Int) (sep : Bool),
      (ctor iosig n sep).d_num_events_registered = 0 ∧
      (ctor iosig n sep).d_num_events_distributed = 0) ∧
    (∀ (rand : Nat) (msg : pmt) (s1 : es_distributor),
      dist_msg_random s rand msg = Outcome.ok s1 →
      s.d_num_events_registered ≤ s1.d_num_events_registered ∧
      s.d_num_events_distributed ≤ s1.d_num_events_distributed) ∧
    (∀ (msg : pmt), ∃ s1, dist_msg_all s msg = Outcome.ok s1 ∧
      s.d_num_events_registered ≤ s1.d_num_events_registered ∧
      s.d_num_events_distributed ≤ s1.d_num_events_distributed) ∧
    (∀ (sizeof_stream_item : Nat → Int) (noutput_items : Int)
      (input_items output_items out : List (List byte)) (produced : Int)
      (s1 : es_distributor),
      work s sizeof_stream_item noutput_items input_items output_items
        = Outcome.ok (s1, out, produced) →
      s1.d_num_events_registered = s.d_num_events_registered ∧
      s1.d_num_events_distributed = s.d_num_events_distributed) ∧
    nevents_registered s = (s.d_num_events_registered, s) ∧
    nevents_distributed s = (s.d_num_events_distributed, s) := by
  refine ⟨?_, ?_, ?_, ?_, rfl, rfl⟩
  · intro iosig n sep
    obtain ⟨_, _, hd, hr, _⟩ := ctor_fields iosig n sep
    exact ⟨hr, hd⟩
  · intro rand msg s1 h
    obtain ⟨_, _, _, _, _, hd, hr⟩ := dist_msg_random_frame s s1 rand msg h
    exact ⟨hr, hd⟩
  · intro msg
    refine ⟨_, dist_msg_all_eq s msg, ?_, ?_⟩
    · exact Nat.le_succ _
    · exact Nat.le_refl _
  · intro f k ins outs out produced s1 h
    obtain ⟨h1, _⟩ := work_frame s s1 f k ins outs out produced h
    subst h1
    exact ⟨rfl, rfl⟩

theorem C9_counters_witness :
    (nevents_registered (ctor [4] 2 false)).1 = 0 ∧
    (nevents_distributed (ctor [4] 2 false)).1 = 0 ∧
    (nevents_registered (ctor [4] 2 false)).2 = ctor [4] 2 false := by
  obtain ⟨h0, _, _, _, hr, hd⟩ := C9_counters (ctor [4] 2 false)
  rw [hr, hd]
  exact ⟨(h0 [4] 2 false).1, (h0 [4] 2 false).2, rfl⟩

/-! ## Construction with any number of outbound ports -/

/-- C10, as the code has it: the constructor checks no bound on
`num_out_ports`. For every integer, negative ones and ones above 4 included,
`es_make_distributor` returns a distributor and raises no error; the
distributor keeps `num_out_ports` as given and has that many outbound ports,
none when the number is negative. -/
theorem C10_construction_unchecked (iosig : List Int) (n : Int) (sep : Bool) :
    es_make_distributor iosig n sep = Outcome.ok (ctor iosig n sep) ∧
    (∀ what, es_make_distributor iosig n sep ≠ Outcome.raised what) ∧
    (ctor iosig n sep).d_num_out_ports = n ∧
    (ctor iosig n sep).d_out_ports.length = n.toNat ∧
    (ctor iosig n sep).msg_ports_out = (ctor iosig n sep).d_out_ports := by
  have hb := reachable_ports_as_built _ (Reachable.ctor iosig n sep)
  refine ⟨rfl, ?_, (ctor_fields iosig n sep).1, ?_, hb.2⟩
  · intro what
    exact fun e => Outcome.noConfusion e
  · rw [ports_as_built_length _ hb, (ctor_fields iosig n sep).1]

/-- C10 as stated fails: asked for five outbound ports, or for minus one, the
factory returns a distributor, with the five ports `dist_out0 .. dist_out4` in
the first case and with no port in the second. -/
theorem C10_counterexample_five_ports :
    es_make_distributor [4] 5 false = Outcome.ok (ctor [4] 5 false) ∧
    (ctor [4] 5 false).d_out_ports =
      ["dist_out0", "dist_out1", "dist_out2", "dist_out3", "dist_out4"] ∧
    es_make_distributor [4] (-1) false = Outcome.ok (ctor [4] (-1) false) ∧
    (ctor [4] (-1) false).d_out_ports = [] := by
  decide

/-! ## The publish log over the life of a distributor -/

theorem dist_msg_random_cases (s s1 : es_distributor) (rand : Nat) (msg : pmt)
    (h : dist_msg_random s rand msg = Outcome.ok s1) :
    s1 = { s with
            published := s.published ++ s.d_out_ports.map (fun port => (port, msg))
            d_num_events_registered := s.d_num_events_registered + 1 } ∨
    ∃ port, port ∈ s.d_out_ports ∧
      s1 = { s with
              published := s.published ++ [(port, msg)]
              d_num_events_distributed := s.d_num_events_distributed + 1 } := by
  unfold dist_msg_random at h
  split at h
  · rw [dist_msg_all_eq] at h
    cases h
    exact Or.inl rfl
  · split at h
    · cases h
    · simp only at h
      split at h
      · cases h
      · split at h
        · cases h
        · rename_i port hport
          cases h
          exact Or.inr ⟨port, List.getElem?_mem hport, rfl⟩

theorem reachable_accounting (s : es_distributor) (h : Reachable s) :
    s.published.length =
      s.d_num_events_distributed + s.d_out_ports.length * s.d_num_events_registered := by
  induction h with
  | ctor iosig n sep =>
    obtain ⟨_, _, hd, hr, _, hp⟩ := ctor_fields iosig n sep
    rw [hd, hr, hp]
    simp
  | dist_msg_random rand msg _ hstep ih =>
    rcases dist_msg_random_cases _ _ rand msg hstep with h1 | ⟨port, _, h1⟩
    · subst h1
      simp only [List.length_append, List.length_map, ih]
      ring
    · subst h1
      simp only [List.length_append, List.length_singleton, ih]
      ring
  | dist_msg_all msg _ hstep ih =>
    rw [dist_msg_all_eq] at hstep
    cases hstep
    simp only [List.length_append, List.length_map, ih]
    ring
  | work f k ins outs out produced _ hstep ih =>
    obtain ⟨h1, _⟩ := work_frame _ _ f k ins outs out produced hstep
    subst h1
    exact ih
  | nevents_registered _ ih => exact ih
  | nevents_distributed _ ih => exact ih

theorem reachable_published_ports (s : es_distributor) (h : Reachable s) :
    ∀ e ∈ s.published, e.1 ∈ s.d_out_ports := by
  induction h with
  | ctor iosig n sep =>
    rw [(ctor_fields iosig n sep).2.2.2.2.2]
    intro e he
    cases he
  | dist_msg_random rand msg _ hstep ih =>
    rcases dist_msg_random_cases _ _ rand msg hstep with h1 | ⟨port, hport, h1⟩
    · subst h1
      intro e he
      rcases List.mem_append.mp he with h | h
      · exact ih e h
      · obtain ⟨p, hp, rfl⟩ := List.mem_map.mp h
        exact hp
    · subst h1
      intro e he
      rcases List.mem_append.mp he with h | h
      · exact ih e h
      · rw [List.mem_singleton] at h
        subst h
        exact hport
  | dist_msg_all msg _ hstep ih =>
    rw [dist_msg_all_eq] at hstep
    cases hstep
    intro e he
    rcases List.mem_append.mp he with h | h
    · exact ih e h
    · obtain ⟨p, hp, rfl⟩ := List.mem_map.mp h
      exact hp
  | work f k ins outs out produced _ hstep ih =>
    obtain ⟨h1, _⟩ := work_frame _ _ f k ins outs out produced hstep
    subst h1
    exact ih
  | nevents_registered _ ih => exact ih
  | nevents_distributed _ ih => exact ih

theorem reachable_from_ctor (s : es_distributor) (h : Reachable s) :
    ∃ (iosig : List Int) (n : Int) (sep : Bool),
      s = { ctor iosig n sep with
            d_time := s.d_time
            d_num_events_distributed := s.d_num_events_distributed
            d_num_events_registered := s.d_num_events_registered
            published := s.published } := by
  induction h with
  | ctor iosig n sep => exact ⟨iosig, n, sep, rfl⟩
  | dist_msg_random rand msg _ hstep ih =>
    obtain ⟨iosig, n, sep, hc⟩ := ih
    refine ⟨iosig, n, sep, ?_⟩
    rcases dist_msg_random_cases _ _ rand msg hstep with h1 | ⟨port, _, h1⟩
    · subst h1
      simp only
      rw [hc]
    · subst h1
      simp only
      rw [hc]
  | dist_msg_all msg _ hstep ih =>
    obtain ⟨iosig, n, sep, hc⟩ := ih
    refine ⟨iosig, n, sep, ?_⟩
    rw [dist_msg_all_eq] at hstep
    cases hstep
    simp only
    rw [hc]
  | work f k ins outs out produced _ hstep ih =>
    obtain ⟨iosig, n, sep, hc⟩ := ih
    refine ⟨iosig, n, sep, ?_⟩
    obtain ⟨h1, _⟩ := work_frame _ _ f k ins outs out produced hstep
    subst h1
    simp only
    rw [hc]
  | nevents_registered _ ih => exact ih
  | nevents_distributed _ ih => exact ih

theorem sum_indicator_eq_count (x : String) : ∀ (ports : List String),
    (ports.map (fun p => if x = p then 1 else 0)).sum = ports.count x := by
  intro ports
  induction ports with
  | nil => rfl
  | cons a t ih =>
    by_cases h : x = a
    · subst h
      simp [ih]
      omega
    · have h2 : (a == x) = false := by simpa using fun e => h e.symm
      simp [ih, h, List.count_cons, h2]

theorem published_on_cons (e : String × pmt) (t : List (String × pmt)) (p : String) :
    published_on (e :: t) p = (if e.1 = p then 1 else 0) + published_on t p := by
  unfold published_on
  by_cases h : e.1 = p
  · simp [List.filter_cons, h]
    omega
  · simp [List.filter_cons, h]

theorem published_on_sum (ports : List String) (hnd : ports.Nodup) :
    ∀ (log : List (String × pmt)), (∀ e ∈ log, e.1 ∈ ports) →
    (ports.map (published_on log)).sum = log.length := by
  intro log
  induction log with
  | nil =>
    intro _
    have h0 : ports.map (published_on []) = ports.map (fun _ => 0) :=
      List.map_congr_left (fun p _ => rfl)
    rw [h0]
    simp
  | cons e t ih =>
    intro hmem
    have h1 : ports.map (published_on (e :: t)) =
        ports.map (fun p => (if e.1 = p then 1 else 0) + published_on t p) := by
      apply List.map_congr_left
      intro p _
      exact published_on_cons e t p
    rw [h1, List.sum_map_add, sum_indicator_eq_count,
      List.count_eq_one_of_mem hnd (hmem e (List.mem_cons_self _ _)),
      ih (fun x hx => hmem x (List.mem_cons_of_mem _ hx))]
    simp only [List.length_cons]
    omega

/-- C11: a distributor built with three outbound ports and without split
registration is sent 100 ordinary messages, with any values of `rand()`: the
run returns, `d_num_events_distributed` is 100, `d_num_events_registered` is 0,
100 messages were published and the numbers published on `dist_out0`,
`dist_out1` and `dist_out2` add up to 100. A further call of
`dist_msg_random` with a pair headed by `ES_REGISTER_HANDLER` returns and
publishes that message once on each of the three ports;
`d_num_events_registered` is then 1 and `d_num_events_distributed` still
100. -/
theorem C11_end_to_end (iosig : List Int) (calls : List (Nat × pmt))
    (hlen : calls.length = 100) (hord : ∀ c ∈ calls, is_registration c.2 = false)
    (rand : Nat) (reg : pmt) (hreg : pmt.car reg = some (pmt.mp "ES_REGISTER_HANDLER")) :
    ∃ s1 s2, dist_msg_random_seq (ctor iosig 3 false) calls = Outcome.ok s1 ∧
      s1.d_num_events_distributed = 100 ∧ s1.d_num_events_registered = 0 ∧
      s1.published.length = 100 ∧
      published_on s1.published "dist_out0" + published_on s1.published "dist_out1"
        + published_on s1.published "dist_out2" = 100 ∧
      dist_msg_random s1 rand reg = Outcome.ok s2 ∧
      s2.published = s1.published ++
        [("dist_out0", reg), ("dist_out1", reg), ("dist_out2", reg)] ∧
      s2.d_num_events_registered = 1 ∧ s2.d_num_events_distributed = 100 := by
  obtain ⟨hn, hsep, hd, hr, _, hp⟩ := ctor_fields iosig 3 false
  have hports : (ctor iosig 3 false).d_out_ports = ["dist_out0", "dist_out1", "dist_out2"] := by
    rw [ctor_d_out_ports]
    decide
  obtain ⟨hidx, hrun⟩ := dist_msg_random_seq_eq calls (ctor iosig 3 false)
    (by rw [hn]; decide) (by rw [hn, hports]; rfl) (fun c hc => Or.inr (hord c hc))
  have hmem : ∀ e ∈ calls.map (fun c =>
      ((ctor iosig 3 false).d_out_ports.getD
        (c.1 % (ctor iosig 3 false).d_num_out_ports.toNat) "", c.2)),
      e.1 ∈ ["dist_out0", "dist_out1", "dist_out2"] := by
    intro e he
    obtain ⟨c, hc, rfl⟩ := List.mem_map.mp he
    simp only
    rw [List.getD_eq_getElem?_getD, List.getElem?_eq_getElem (hidx c hc), ← hports]
    exact List.getElem_mem _
  have hsum := published_on_sum ["dist_out0", "dist_out1", "dist_out2"] (by decide) _ hmem
  simp only [List.map_cons, List.map_nil, List.sum_cons, List.sum_nil, List.length_map,
    hlen] at hsum
  have hstep := dist_msg_random_registration
    { ctor iosig 3 false with
      published := (ctor iosig 3 false).published ++ calls.map (fun c =>
        ((ctor iosig 3 false).d_out_ports.getD
          (c.1 % (ctor iosig 3 false).d_num_out_ports.toNat) "", c.2))
      d_num_events_distributed := (ctor iosig 3 false).d_num_events_distributed + calls.length }
    rand reg hsep (is_registration_of_car reg hreg)
  rw [dist_msg_all_eq] at hstep
  refine ⟨_, _, hrun, ?_, hr, ?_, ?_, hstep, ?_, ?_, ?_⟩
  · simp only [hd, hlen]
  · simp only [hp, List.nil_append, List.length_map, hlen]
  · simp only [hp, List.nil_append]
    omega
  · simp only [hports, List.map_cons, List.map_nil]
  · simp only [hr]
  · simp only [hd, hlen]

theorem C11_end_to_end_witness :
    ∃ s1 s2, dist_msg_random_seq (ctor [4] 3 false)
        ((List.range 100).map (fun k => (k, pmt.integer (Int.ofNat k)))) = Outcome.ok s1 ∧
      s1.d_num_events_distributed = 100 ∧ s1.d_num_events_registered = 0 ∧
      dist_msg_random s1 5 (pmt.pair (pmt.mp "ES_REGISTER_HANDLER") pmt.nil) = Outcome.ok s2 ∧
      s2.d_num_events_registered = 1 ∧ s2.d_num_events_distributed = 100 := by
  obtain ⟨s1, s2, h1, h2, h3, _, _, h6, _, h8, h9⟩ :=
    C11_end_to_end [4] ((List.range 100).map (fun k => (k, pmt.integer (Int.ofNat k))))
      (by simp)
      (by
        intro c hc
        obtain ⟨k, _, rfl⟩ := List.mem_map.mp hc
        rfl)
      5 (pmt.pair (pmt.mp "ES_REGISTER_HANDLER") pmt.nil) (by decide)
  exact ⟨s1, s2, h1, h2, h3, h6, h8, h9⟩

/-- C12: built with zero to four outbound ports, a distributor has exactly
that many entries in `d_out_ports`. From every reachable state, a call of
`dist_msg_random` or of `work` that returns, every call of `dist_msg_all`
(which always returns) and the two accessors leave `d_out_ports`,
`d_num_out_ports` and `d_separate_registration` as they were. So a reachable
state is the one its constructor call built, but for `d_time`, the two
counters and the publish log, and every entry of the publish log is on a port
of the `d_out_ports` that constructor call built. -/
theorem C12_out_ports_fixed (s : es_distributor) (hs : Reachable s) :
    (∀ (iosig : List Int) (n : Int) (sep : Bool), 0 ≤ n → n ≤ 4 →
      ((ctor iosig n sep).d_out_ports.length : Int) = n) ∧
    (∀ (rand : Nat) (msg : pmt) (s1 : es_distributor),
      dist_msg_random s rand msg = Outcome.ok s1 →
      s1.d_out_ports = s.d_out_ports ∧ s1.d_num_out_ports = s.d_num_out_ports ∧
      s1.d_separate_registration = s.d_separate_registration) ∧
    (∀ (msg : pmt), ∃ s1, dist_msg_all s msg = Outcome.ok s1 ∧
      s1.d_out_ports = s.d_out_ports ∧ s1.d_num_out_ports = s.d_num_out_ports ∧
      s1.d_separate_registration = s.d_separate_registration) ∧
    (∀ (sizeof_stream_item : Nat → Int) (noutput_items : Int)
      (input_items output_items out : List (List byte)) (produced : Int)
      (s1 : es_distributor),
      work s sizeof_stream_item noutput_items input_items output_items
        = Outcome.ok (s1, out, produced) →
      s1.d_out_ports = s.d_out_ports ∧ s1.d_num_out_ports = s.d_num_out_ports ∧
      s1.d_separate_registration = s.d_separate_registration) ∧
    (nevents_registered s).2 = s ∧ (nevents_distributed s).2 = s ∧
    (∃ (iosig : List Int) (n : Int) (sep : Bool),
      s = { ctor iosig n sep with
            d_time := s.d_time
            d_num_events_distributed := s.d_num_events_distributed
            d_num_events_registered := s.d_num_events_registered
            published := s.published } ∧
      ∀ e ∈ s.published, e.1 ∈ (ctor iosig n sep).d_out_ports) := by
  refine ⟨?_, ?_, ?_, ?_, rfl, rfl, ?_⟩
  · intro iosig n sep h0 _
    have hb := reachable_ports_as_built _ (Reachable.ctor iosig n sep)
    rw [ports_as_built_length _ hb, (ctor_fields iosig n sep).1]
    omega
  · intro rand msg s1 h
    obtain ⟨h1, h2, _, h4, _⟩ := dist_msg_random_frame s s1 rand msg h
    exact ⟨h1, h2, h4⟩
  · intro msg
    exact ⟨_, dist_msg_all_eq s msg, rfl, rfl, rfl⟩
  · intro f k ins outs out produced s1 h
    obtain ⟨h1, _⟩ := work_frame s s1 f k ins outs out produced h
    subst h1
    exact ⟨rfl, rfl, rfl⟩
  · obtain ⟨iosig, n, sep, hc⟩ := reachable_from_ctor s hs
    refine ⟨iosig, n, sep, hc, ?_⟩
    have hp : (ctor iosig n sep).d_out_ports = s.d_out_ports := by
      rw [hc]
    rw [hp]
    exact reachable_published_ports s hs

theorem C12_out_ports_fixed_witness :
    ∃ s1, dist_msg_all (ctor [4] 2 false) (pmt.symbol "event") = Outcome.ok s1 ∧
      s1.d_out_ports = (ctor [4] 2 false).d_out_ports ∧
      s1.d_num_out_ports = (ctor [4] 2 false).d_num_out_ports ∧
      s1.d_separate_registration = (ctor [4] 2 false).d_separate_registration :=
  (C12_out_ports_fixed (ctor [4] 2 false) (Reachable.ctor [4] 2 false)).2.2.1
    (pmt.symbol "event")

/-- C13: for every state and message, a call of `dist_msg_random` that returns
and every call of `dist_msg_all` (which always returns) leave `d_time` as it
was. For every state and input, a call of `work` that returns publishes nothing
and leaves `d_num_events_distributed`, `d_num_events_registered` and
`d_out_ports` as they were: it changes `d_time` only, which it advances by
`noutput_items`. The accessors change nothing. -/
theorem C13_d_time_and_work_frame (s : es_distributor) :
    (∀ (rand : Nat) (msg : pmt) (s1 : es_distributor),
      dist_msg_random s rand msg = Outcome.ok s1 → s1.d_time = s.d_time) ∧
    (∀ (msg : pmt), ∃ s1, dist_msg_all s msg = Outcome.ok s1 ∧ s1.d_time = s.d_time) ∧
    (∀ (sizeof_stream_item : Nat → Int) (noutput_items : Int)
      (input_items output_items out : List (List byte)) (produced : Int)
      (s1 : es_distributor),
      work s sizeof_stream_item noutput_items input_items output_items
        = Outcome.ok (s1, out, produced) →
      s1.published = s.published ∧
      s1.d_num_events_distributed = s.d_num_events_distributed ∧
      s1.d_num_events_registered = s.d_num_events_registered ∧
      s1.d_out_ports = s.d_out_ports ∧
      s1 = { s with d_time := s.d_time + noutput_items }) ∧
    (nevents_registered s).2 = s ∧ (nevents_distributed s).2 = s := by
  refine ⟨?_, ?_, ?_, rfl, rfl⟩
  · intro rand msg s1 h
    exact (dist_msg_random_frame s s1 rand msg h).2.2.2.2.1
  · intro msg
    exact ⟨_, dist_msg_all_eq s msg, rfl⟩
  · intro f k ins outs out produced s1 h
    obtain ⟨h1, _⟩ := work_frame s s1 f k ins outs out produced h
    subst h1
    exact ⟨rfl, rfl, rfl, rfl, rfl⟩

theorem C13_d_time_and_work_frame_witness :
    ∃ s1, dist_msg_all (ctor [4] 2 true) (pmt.symbol "event") = Outcome.ok s1 ∧
      s1.d_time = (ctor [4] 2 true).d_time :=
  (C13_d_time_and_work_frame (ctor [4] 2 true)).2.1 (pmt.symbol "event")

/-- C14: in every state reachable from a distributor built with one to four
outbound ports, the number of messages published so far is
`d_num_events_distributed + d_num_out_ports * d_num_events_registered`; from
such a state every call of `dist_msg_random` and of `dist_msg_all` returns. -/
theorem C14_accounting (s : es_distributor) (hs : Reachable s)
    (hn : 1 ≤ s.d_num_out_ports ∧ s.d_num_out_ports ≤ 4) :
    (s.published.length : Int) =
      s.d_num_events_distributed + s.d_num_out_ports * s.d_num_events_registered ∧
    (∀ (rand : Nat) (msg : pmt), ∃ s1, dist_msg_random s rand msg = Outcome.ok s1) ∧
    (∀ (msg : pmt), ∃ s1, dist_msg_all s msg = Outcome.ok s1) := by
  have hb := reachable_ports_as_built s hs
  have hlen := ports_as_built_length s hb
  have hlen2 : (s.d_out_ports.length : Int) = s.d_num_out_ports := by omega
  refine ⟨?_, ?_, ?_⟩
  · rw [reachable_accounting s hs, ← hlen2]
    push_cast
    ring
  · intro rand msg
    by_cases hord : s.d_separate_registration = true ∨ is_registration msg = false
    · obtain ⟨port, _, hstep⟩ := dist_msg_random_pick s rand msg hord (by omega) hlen2
      exact ⟨_, hstep⟩
    · have h1 : s.d_separate_registration = false := by
        cases h : s.d_separate_registration
        · rfl
        · exact absurd (Or.inl h) hord
      have h2 : is_registration msg = true := by
        cases h : is_registration msg
        · exact absurd (Or.inr h) hord
        · rfl
      exact ⟨_, (dist_msg_random_registration s rand msg h1 h2).trans (dist_msg_all_eq s msg)⟩
  · intro msg
    exact ⟨_, dist_msg_all_eq s msg⟩

theorem C14_accounting_witness :
    ∃ s1 s2,
      dist_msg_random (ctor [4] 3 false) 7 (pmt.symbol "event") = Outcome.ok s1 ∧
      dist_msg_random s1 5 (pmt.pair (pmt.mp "ES_REGISTER_HANDLER") pmt.nil) = Outcome.ok s2 ∧
      s2.published =
        [("dist_out1", pmt.symbol "event"),
         ("dist_out0", pmt.pair (pmt.mp "ES_REGISTER_HANDLER") pmt.nil),
         ("dist_out1", pmt.pair (pmt.mp "ES_REGISTER_HANDLER") pmt.nil),
         ("dist_out2", pmt.pair (pmt.mp "ES_REGISTER_HANDLER") pmt.nil)] ∧
      s2.d_num_events_distributed = 1 ∧ s2.d_num_events_registered = 1 ∧
      s2.d_num_out_ports = 3 ∧
      (s2.published.length : Int) =
        s2.d_num_events_distributed + s2.d_num_out_ports * s2.d_num_events_registered := by
  have h1 : dist_msg_random (ctor [4] 3 false) 7 (pmt.symbol "event") =
      Outcome.ok { ctor [4] 3 false with
        published := [("dist_out1", pmt.symbol "event")]
        d_num_events_distributed := 1 } := by decide
  have h2 : dist_msg_random
      { ctor [4] 3 false with
        published := [("dist_out1", pmt.symbol "event")]
        d_num_events_distributed := 1 }
      5 (pmt.pair (pmt.mp "ES_REGISTER_HANDLER") pmt.nil) =
      Outcome.ok { ctor [4] 3 false with
        published :=
          [("dist_out1", pmt.symbol "event"),
           ("dist_out0", pmt.pair (pmt.mp "ES_REGISTER_HANDLER") pmt.nil),
           ("dist_out1", pmt.pair (pmt.mp "ES_REGISTER_HANDLER") pmt.nil),
           ("dist_out2", pmt.pair (pmt.mp "ES_REGISTER_HANDLER") pmt.nil)]
        d_num_events_distributed := 1
        d_num_events_registered := 1 } := by decide
  exact ⟨_, _, h1, h2, rfl, rfl, rfl, by decide,
    (C14_accounting _
      (Reachable.dist_msg_random 5 (pmt.pair (pmt.mp "ES_REGISTER_HANDLER") pmt.nil)
        (Reachable.dist_msg_random 7 (pmt.symbol "event") (Reachable.ctor [4] 3 false) h1) h2)
      (by decide)).1⟩

/-- C15: a reachable distributor with `d_num_out_ports <= 0` has no outbound
port. On it a call of `dist_msg_all`, and in non-split mode a call of
`dist_msg_random` with a pair headed by `ES_REGISTER_HANDLER`, returns,
publishes nothing and adds one to `d_num_events_registered`, changing nothing
else. -/
theorem C15_broadcast_without_ports (s : es_distributor) (hs : Reachable s)
    (hn : s.d_num_out_ports ≤ 0) (msg : pmt) :
    s.d_out_ports = [] ∧ s.msg_ports_out = [] ∧
    dist_msg_all s msg =
      Outcome.ok { s with d_num_events_registered := s.d_num_events_registered + 1 } ∧
    (s.d_separate_registration = false →
      pmt.car msg = some (pmt.mp "ES_REGISTER_HANDLER") →
      ∀ rand : Nat, dist_msg_random s rand msg =
        Outcome.ok { s with d_num_events_registered := s.d_num_events_registered + 1 }) := by
  have hb := reachable_ports_as_built s hs
  have hlen := ports_as_built_length s hb
  have hnil : s.d_out_ports = [] := by
    apply List.eq_nil_of_length_eq_zero
    omega
  have hall : dist_msg_all s msg =
      Outcome.ok { s with d_num_events_registered := s.d_num_events_registered + 1 } := by
    rw [dist_msg_all_eq, hnil]
    simp
  refine ⟨hnil, by rw [hb.2, hnil], hall, ?_⟩
  intro hsplit hreg rand
  rw [dist_msg_random_registration s rand msg hsplit (is_registration_of_car msg hreg)]
  exact hall

theorem C15_broadcast_without_ports_witness :
    dist_msg_all (ctor [4] 0 false) (pmt.pair (pmt.mp "ES_REGISTER_HANDLER") pmt.nil) =
      Outcome.ok { ctor [4] 0 false with
        d_num_events_registered := (ctor [4] 0 false).d_num_events_registered + 1 } :=
  (C15_broadcast_without_ports (ctor [4] 0 false) (Reachable.ctor [4] 0 false) (by decide)
    (pmt.pair (pmt.mp "ES_REGISTER_HANDLER") pmt.nil)).2.2.1
